import Mathlib

/-!
Shallow embedding of the escooter trip-generation pipeline
(`load-generator/load-generator.py`): a weighted multigraph model,
the OD-pair sampler with its three fallback tiers, shortest-path routing,
travel-time derivation, trip-event generation, the pandas event-frame
accumulation, and the top-level pipeline control flow.

Machine reals (Python floats for lengths, speeds and times) are modelled
as rationals; `random.choice` is modelled by an explicit index into the
candidate list; UUIDs are modelled as naturals supplied by explicit
streams.
-/

namespace LoadGenerator

/-- One edge of the osmnx `MultiDiGraph`: endpoints `u`,`v`, the parallel-edge
`key`, the `length` attribute (meters), the assigned `speed_kph`, and the
derived `travel_time` (seconds). -/
structure Edge where
  u : Nat
  v : Nat
  key : Nat
  length : ℚ
  speed_kph : ℚ
  travel_time : ℚ
deriving DecidableEq

/-- The road-network graph: node identifiers, multi-edges, and per-node
coordinates `pos n = (x, y)` mirroring the node attributes `"x"` (longitude)
and `"y"` (latitude). -/
structure Graph where
  nodes : List Nat
  edges : List Edge
  pos : Nat → ℚ × ℚ

/-- Successors of `u` in the full graph (`G.neighbors(node)` on a
`MultiDiGraph` yields each successor once). -/
def neighbors (G : Graph) (u : Nat) : List Nat :=
  ((G.edges.filter (fun e => e.u == u)).map (fun e => e.v)).dedup

/-- Whether at least one (parallel) edge connects `u` to `v`. -/
def hasEdgeB (G : Graph) (u v : Nat) : Bool :=
  G.edges.any (fun e => e.u == u && e.v == v)

/-- `length` attributes of all parallel edges from `u` to `v`. -/
def edgeLengths (G : Graph) (u v : Nat) : List ℚ :=
  (G.edges.filter (fun e => e.u == u && e.v == v)).map (fun e => e.length)

/-- Minimum of a list of rationals with a default for the empty list. -/
def listMinD (l : List ℚ) (d : ℚ) : ℚ :=
  match l with
  | [] => d
  | x :: xs => xs.foldl min x

/-- Effective Dijkstra weight of the node pair `(u, v)`: networkx uses the
minimum `length` over the parallel edges between `u` and `v`. -/
def minEdgeLength (G : Graph) (u v : Nat) : ℚ :=
  listMinD (edgeLengths G u v) 0

/-- All simple paths from `u` to `t` that avoid `vis`, by bounded expansion
along successors; `fuel` bounds the number of expansion steps. -/
def pathsFromAux (G : Graph) : Nat → Nat → Nat → List Nat → List (List Nat)
  | 0, _, _, _ => []
  | fuel + 1, u, t, vis =>
      if u = t then [[u]]
      else
        ((neighbors G u).filter (fun w => !((u :: vis).contains w))).flatMap
          (fun w => (pathsFromAux G fuel w t (u :: vis)).map (fun p => u :: p))

/-- All simple paths from `u` to `v` in `G` (a simple path visits at most
`G.nodes.length` nodes, so this fuel enumerates them all). -/
def simplePaths (G : Graph) (u v : Nat) : List (List Nat) :=
  pathsFromAux G (G.nodes.length + 1) u v []

/-- Cumulative weight of a node sequence under the per-pair Dijkstra weight. -/
def pathWeight (G : Graph) : List Nat → ℚ
  | [] => 0
  | [_] => 0
  | a :: b :: rest => minEdgeLength G a b + pathWeight G (b :: rest)

/-- Modelled from the spec: the shortest-path distance used by the networkx
Dijkstra expansion inside `nx.ego_graph(..., distance="length")` — the minimum
cumulative `length` over paths from `u` to `v`, `none` when `v` is
unreachable. -/
def sdist (G : Graph) (u v : Nat) : Option ℚ :=
  match (simplePaths G u v).map (pathWeight G) with
  | [] => none
  | x :: xs => some (xs.foldl min x)

/-- Whether `n` lies within Dijkstra distance `r` of `s`. -/
def withinRadius (G : Graph) (s : Nat) (r : ℚ) (n : Nat) : Bool :=
  match sdist G s n with
  | some d => decide (d ≤ r)
  | none => false

/-- Modelled from the spec: node set of
`nx.ego_graph(G, s, center=True, radius=r, distance="length")` — the center
`s` together with every node whose shortest cumulative `length` distance from
`s` is at most `r`, in graph node order. -/
def egoNodes (G : Graph) (s : Nat) (r : ℚ) : List Nat :=
  G.nodes.filter (fun n => decide (n = s) || withinRadius G s r n)

/-- The boundary-node loop of `sample_od_pair`: ego-subgraph nodes other than
the start node having a successor, in the full graph, outside the ego
subgraph (`original_neighbors - ego_neighbors` non-empty, the ego subgraph
being the induced subgraph on `egoNodes`). -/
def boundaryNodes (G : Graph) (s : Nat) (r : ℚ) : List Nat :=
  (egoNodes G s r).filter
    (fun n => decide (n ≠ s) && (neighbors G n).any (fun m => decide (m ∉ egoNodes G s r)))

/-- `random.choice` modelled by an explicit index: element `i % l.length` of
`l` (default `0` on the empty list, on which `random.choice` raises). -/
def choiceIdx (l : List Nat) (i : Nat) : Nat :=
  l.getD (i % l.length) 0

/-- The candidate destination list of `sample_od_pair` after its two fallback
rebindings of `boundary_nodes`: the boundary nodes; if none, the ego-subgraph
nodes with the start node removed; if that is also empty, the start node
itself. -/
def odCandidates (G : Graph) (s : Nat) (r : ℚ) : List Nat :=
  let boundary := boundaryNodes G s r
  let boundary1 := if boundary = [] then (egoNodes G s r).erase s else boundary
  if boundary1 = [] then [s] else boundary1

/-- `sample_od_pair(G, nodes, requested_trip_length)`: pick the start node
from `nodes`, then the end node from the candidate list; the two
`random.choice` calls are modelled by the indices `i` and `j`. -/
def sample_od_pair (G : Graph) (nodes : List Nat) (r : ℚ) (i j : Nat) : Nat × Nat :=
  let start_node := choiceIdx nodes i
  (start_node, choiceIdx (odCandidates G start_node r) j)

/-- `ox.routing.shortest_path(G, u, v, weight="length")`: modelled from the
spec as shortest-by-`length` path search (Dijkstra or equivalent) — the
minimum-weight simple path, `none` when no path connects the pair. -/
def shortest_path (G : Graph) (u v : Nat) : Option (List Nat) :=
  match simplePaths G u v with
  | [] => none
  | p :: ps =>
      some (ps.foldl (fun best q => if pathWeight G q < pathWeight G best then q else best) p)

/-- A node sequence `p` is a walk of `G` from `u` to `v`: it starts at `u`,
ends at `v`, and consecutive nodes are joined by an edge. -/
def IsWalkFrom (G : Graph) (u v : Nat) (p : List Nat) : Prop :=
  p.head? = some u ∧ p.getLast? = some v ∧ List.Chain' (fun a b => hasEdgeB G a b = true) p

/-- Some path connects `u` to `v` in `G`. -/
def PathExists (G : Graph) (u v : Nat) : Prop :=
  ∃ p, IsWalkFrom G u v p

/-- The route list of the pipeline: each OD pair is resolved by
`shortest_path` and the pairs with no route are skipped. -/
def pipelineRoutes (G : Graph) (pairs : List (Nat × Nat)) : List (List Nat) :=
  pairs.filterMap (fun p => shortest_path G p.1 p.2)

/-- The realized success rate logged at the end of the routing stage:
`len(routes) / num_trips`. -/
def successRate (G : Graph) (pairs : List (Nat × Nat)) (numTrips : Nat) : ℚ :=
  ((pipelineRoutes G pairs).length : ℚ) / (numTrips : ℚ)

/-- Modelled from the spec: osmnx `add_edge_travel_times` — every edge gets
`travel_time` = `length / (speed_kph * 1000 / 3600)` seconds. -/
def add_edge_travel_times (G : Graph) : Graph :=
  { G with edges := G.edges.map (fun e =>
      { e with travel_time := e.length / (e.speed_kph * 1000 / 3600) }) }

/-- The travel time read by the event loop: `G[prev_u][u][0]["travel_time"]`,
the `travel_time` of the parallel edge stored under key `0` (default `0` when
the pair has no such edge, on which the Python lookup raises). -/
def travelTime0 (G : Graph) (u v : Nat) : ℚ :=
  match G.edges.filter (fun e => e.u == u && e.v == v && e.key == 0) with
  | [] => 0
  | e :: _ => e.travel_time

/-- `travel_time` attributes of all parallel edges from `u` to `v`. -/
def parallelTravelTimes (G : Graph) (u v : Nat) : List ℚ :=
  (G.edges.filter (fun e => e.u == u && e.v == v)).map (fun e => e.travel_time)

/-- The event timestamps of one trip: the route's first node is stamped with
the start time `t` and each following node with the previous stamp plus
`travelTime0` of the connecting pair, mirroring the while loop. -/
def tripTimestamps (G : Graph) : List Nat → ℚ → List ℚ
  | [], _ => []
  | [_], t => [t]
  | u :: v :: rest, t => t :: tripTimestamps G (v :: rest) (t + travelTime0 G u v)

/-- One generated trip event: `event_id`, `trip_id`, `timestamp`, and the
node coordinates (`latitude` = attribute `"y"`, `longitude` = `"x"`). -/
structure Event where
  event_id : Nat
  trip_id : Nat
  timestamp : ℚ
  latitude : ℚ
  longitude : ℚ
deriving DecidableEq

/-- The event loop for one route: events along the route with timestamps as
in `tripTimestamps`; `eids k` is the UUID drawn for the `k`-th event. -/
def tripEventsAux (G : Graph) (tid : Nat) (eids : Nat → Nat) :
    List Nat → ℚ → Nat → List Event
  | [], _, _ => []
  | [u], t, k =>
      [{ event_id := eids k, trip_id := tid, timestamp := t,
         latitude := (G.pos u).2, longitude := (G.pos u).1 }]
  | u :: v :: rest, t, k =>
      { event_id := eids k, trip_id := tid, timestamp := t,
        latitude := (G.pos u).2, longitude := (G.pos u).1 }
        :: tripEventsAux G tid eids (v :: rest) (t + travelTime0 G u v) (k + 1)

/-- One row of the accumulated pandas frame: the `event_id` column value
(`none` models a missing value) and the other event columns. -/
structure EventRow where
  event_id : Option Nat
  trip_id : Nat
  timestamp : ℚ
  latitude : ℚ
  longitude : ℚ
deriving DecidableEq

/-- The index of the accumulated pandas frame: either the `event_id` index
installed by `set_index("event_id")`, or the positional `RangeIndex`
produced by `pd.concat(..., ignore_index=True)`. -/
inductive DFIndex where
  | eventIds (ids : List Nat)
  | rangeIdx (n : Nat)
deriving DecidableEq

/-- The accumulated `events` pandas frame: its index and its column rows. -/
structure EventsDF where
  idx : DFIndex
  rows : List EventRow
deriving DecidableEq

/-- One iteration of the event-accumulation code: on the first event the
frame is created and `set_index("event_id", inplace=True)` moves `event_id`
from the columns into the index; every later event is appended with
`pd.concat([events, ...], ignore_index=True)`, which relabels the index as a
fresh `RangeIndex` and aligns the column union, so the first row's
`event_id` column value stays missing. `none` models the empty frame. -/
def appendEvent : Option EventsDF → Event → Option EventsDF
  | none, e =>
      some { idx := DFIndex.eventIds [e.event_id],
             rows := [{ event_id := none, trip_id := e.trip_id, timestamp := e.timestamp,
                        latitude := e.latitude, longitude := e.longitude }] }
  | some df, e =>
      some { idx := DFIndex.rangeIdx (df.rows.length + 1),
             rows := df.rows ++ [{ event_id := some e.event_id, trip_id := e.trip_id,
                                   timestamp := e.timestamp, latitude := e.latitude,
                                   longitude := e.longitude }] }

/-- The full accumulation of the generated events into the pandas frame. -/
def buildEventsDF (events : List Event) : Option EventsDF :=
  events.foldl appendEvent none

/-- `events.index.is_unique`: pairwise distinctness of the frame's index
labels (a `RangeIndex` is always unique). -/
def indexIsUnique : DFIndex → Bool
  | DFIndex.eventIds ids => decide ids.Nodup
  | DFIndex.rangeIdx _ => true

/-- Whether the post-generation check `if not events.index.is_unique` logs
the "Event IDs are not unique" error (the empty frame's empty index is
unique). -/
def duplicateIdErrorLogged (events : List Event) : Bool :=
  match buildEventsDF events with
  | none => false
  | some df => !(indexIsUnique df.idx)

/-- The `event_id` column of `events.to_csv(..., index=False)`: `none` when
the frame has no `event_id` column at all (empty frame, or the single-frame
case where `event_id` is the index, which `index=False` drops); otherwise the
per-row column values, `none` marking a missing value. -/
def exportedEventIdColumn (events : List Event) : Option (List (Option Nat)) :=
  match buildEventsDF events with
  | none => none
  | some df =>
      match df.idx with
      | DFIndex.eventIds _ => none
      | DFIndex.rangeIdx _ => some (df.rows.map (fun row => row.event_id))

/-- The fatal setup failures: the map provider fails, or the acquired
network is empty. -/
inductive SetupError where
  | acquisitionFailed
  | emptyNetwork
deriving DecidableEq

/-- Modelled from the spec: `ox.graph_from_place` — road-network acquisition,
which per the spec's FatalSetup taxonomy raises when the network cannot be
obtained (`raw = none`) or has zero edges, so the script's top-level
sequence stops there. -/
def graph_from_place (raw : Option Graph) : Except SetupError Graph :=
  match raw with
  | none => Except.error SetupError.acquisitionFailed
  | some G => if G.edges.isEmpty then Except.error SetupError.emptyNetwork else Except.ok G

/-- The per-edge speed assignment loop: edge number `i` (in storage order)
gets `speed_kph := speeds i`, modelling the Beta-distributed draws. -/
def assignSpeeds (G : Graph) (speeds : Nat → ℚ) : Graph :=
  { G with edges := G.edges.mapIdx (fun i e => { e with speed_kph := speeds i }) }

/-- Everything the pipeline produces after a successful setup: the sampled
OD pairs, the routes found, the logged success rate, the generated events,
and the exported `event_id` column. -/
structure PipelineRun where
  odPairs : List (Nat × Nat)
  routes : List (List Nat)
  rate : ℚ
  events : List Event
  eventIdColumn : Option (List (Option Nat))
deriving DecidableEq

/-- The top-level script: acquire the network, assign speeds and travel
times, sample `numTrips` target distances (`dists`) and OD pairs, route
them dropping unreachable pairs, log the success rate, and generate the
events. Every random draw is an explicit stream argument; nothing past
acquisition happens when acquisition fails. -/
def runPipeline (raw : Option Graph) (numTrips : Nat) (dists : Nat → ℚ)
    (speeds : Nat → ℚ) (iO iD : Nat → Nat) (tids : Nat → Nat) (t0s : Nat → ℚ)
    (eids : Nat → Nat → Nat) : Except SetupError PipelineRun :=
  match graph_from_place raw with
  | Except.error e => Except.error e
  | Except.ok G0 =>
      let G := add_edge_travel_times (assignSpeeds G0 speeds)
      let odPairs := (List.range numTrips).map
        (fun k => sample_od_pair G G.nodes (dists k) (iO k) (iD k))
      let routes := pipelineRoutes G odPairs
      let events := (List.range routes.length).flatMap
        (fun j => tripEventsAux G (tids j) (eids j) (routes.getD j []) (t0s j) 0)
      Except.ok { odPairs := odPairs, routes := routes,
                  rate := successRate G odPairs numTrips,
                  events := events,
                  eventIdColumn := exportedEventIdColumn events }

/-- A 4-node cycle A=0, B=1, C=2, D=3 with unit-length edges in both
directions. -/
def cycleG : Graph :=
  { nodes := [0, 1, 2, 3],
    edges :=
      [⟨0, 1, 0, 1, 10, 0⟩, ⟨1, 0, 0, 1, 10, 0⟩,
       ⟨1, 2, 0, 1, 10, 0⟩, ⟨2, 1, 0, 1, 10, 0⟩,
       ⟨2, 3, 0, 1, 10, 0⟩, ⟨3, 2, 0, 1, 10, 0⟩,
       ⟨3, 0, 0, 1, 10, 0⟩, ⟨0, 3, 0, 1, 10, 0⟩],
    pos := fun _ => (0, 0) }

/-- A straight line A=0, B=1, C=2 with lengths 100 m and 200 m and speed
fixed at 10 km/h, before travel-time derivation. -/
def lineG : Graph :=
  { nodes := [0, 1, 2],
    edges :=
      [⟨0, 1, 0, 100, 10, 0⟩, ⟨1, 0, 0, 100, 10, 0⟩,
       ⟨1, 2, 0, 200, 10, 0⟩, ⟨2, 1, 0, 200, 10, 0⟩],
    pos := fun _ => (0, 0) }

/-- The line graph with derived travel times. -/
def lineGT : Graph := add_edge_travel_times lineG

/-- Two nodes joined by two parallel edges: key 0 with travel time 100 s and
key 1 with travel time 10 s. -/
def parG : Graph :=
  { nodes := [0, 1],
    edges := [⟨0, 1, 0, 100, 10, 100⟩, ⟨0, 1, 1, 100, 10, 10⟩],
    pos := fun _ => (0, 0) }

/-- Two nodes and no edge: a disconnected OD pair. -/
def noPathG : Graph :=
  { nodes := [0, 1], edges := [], pos := fun _ => (0, 0) }

theorem getD_mem : ∀ (l : List Nat) (i : Nat), i < l.length → l.getD i 0 ∈ l
  | a :: t, 0, _ => List.mem_cons_self a t
  | a :: t, i + 1, h => List.mem_cons_of_mem a (getD_mem t i (Nat.lt_of_succ_lt_succ h))

theorem choiceIdx_mem {l : List Nat} (h : l ≠ []) (i : Nat) : choiceIdx l i ∈ l := by
  have hlen : 0 < l.length := List.length_pos.mpr h
  exact getD_mem l _ (Nat.mod_lt _ hlen)

theorem choiceIdx_surj (l : List Nat) (x : Nat) (hx : x ∈ l) : ∃ j, choiceIdx l j = x := by
  induction l with
  | nil => cases hx
  | cons a t ih =>
    rcases List.mem_cons.mp hx with rfl | hxt
    · exact ⟨0, by simp [choiceIdx]⟩
    · obtain ⟨j, hj⟩ := ih hxt
      have ht : 0 < t.length := List.length_pos.mpr (List.ne_nil_of_mem hxt)
      have hlt : j % t.length < t.length := Nat.mod_lt _ ht
      refine ⟨j % t.length + 1, ?_⟩
      unfold choiceIdx at hj ⊢
      rw [List.length_cons, Nat.mod_eq_of_lt (Nat.succ_lt_succ hlt), List.getD_cons_succ]
      exact hj

theorem odCandidates_eq (G : Graph) (s : Nat) (r : ℚ) :
    odCandidates G s r =
      if boundaryNodes G s r = [] then
        (if (egoNodes G s r).erase s = [] then [s] else (egoNodes G s r).erase s)
      else boundaryNodes G s r := by
  simp only [odCandidates]
  by_cases hb : boundaryNodes G s r = [] <;>
    by_cases he : (egoNodes G s r).erase s = [] <;> simp [hb, he]

theorem odCandidates_ne_nil (G : Graph) (s : Nat) (r : ℚ) : odCandidates G s r ≠ [] := by
  rw [odCandidates_eq]
  by_cases hb : boundaryNodes G s r = [] <;>
    by_cases he : (egoNodes G s r).erase s = [] <;> simp [hb, he]

theorem mem_boundaryNodes {G : Graph} {s x : Nat} {r : ℚ} :
    x ∈ boundaryNodes G s r ↔
      x ∈ egoNodes G s r ∧ x ≠ s ∧ ∃ m ∈ neighbors G x, m ∉ egoNodes G s r := by
  simp [boundaryNodes, List.mem_filter, List.any_eq_true, and_assoc]

theorem nodup_erase_eq_nil {l : List Nat} {s : Nat} (h : l.Nodup) :
    l.erase s = [] ↔ ∀ x ∈ l, x = s := by
  constructor
  · intro he x hx
    by_contra hne
    have hmem : x ∈ l.erase s := (List.mem_erase_of_ne hne).mpr hx
    simp [he] at hmem
  · intro hall
    cases l with
    | nil => rfl
    | cons a t =>
      have ha : a = s := hall a (List.mem_cons_self a t)
      subst ha
      have ht : t = [] := by
        cases t with
        | nil => rfl
        | cons b u =>
          have hb : b = a := hall b (by simp)
          subst hb
          simp at h
      subst ht
      simp

/-- Claim C1: for every graph, node list and target distance `r`,
`sample_od_pair` picks the origin from `nodes` and the destination from the
boundary nodes of the origin's radius-`r` ego subgraph when that set is
non-empty; when it is empty the destination comes from the ego-subgraph
nodes with the origin removed (fallback tier 1); and when that set is empty
too the destination is the origin itself (fallback tier 2). Moreover every
element of the active candidate tier is reachable by some draw. -/
theorem sample_od_pair_three_tiers (G : Graph) (nodes : List Nat) (r : ℚ) (i j : Nat) :
    (sample_od_pair G nodes r i j).1 = choiceIdx nodes i ∧
      (if boundaryNodes G (choiceIdx nodes i) r = [] then
          (if (egoNodes G (choiceIdx nodes i) r).erase (choiceIdx nodes i) = [] then
            (sample_od_pair G nodes r i j).2 = choiceIdx nodes i
          else
            (sample_od_pair G nodes r i j).2 ∈
              (egoNodes G (choiceIdx nodes i) r).erase (choiceIdx nodes i))
        else (sample_od_pair G nodes r i j).2 ∈ boundaryNodes G (choiceIdx nodes i) r) ∧
      ∀ x ∈ odCandidates G (choiceIdx nodes i) r,
        ∃ j2, (sample_od_pair G nodes r i j2).2 = x := by
  refine ⟨rfl, ?_, ?_⟩
  · by_cases hb : boundaryNodes G (choiceIdx nodes i) r = []
    · by_cases he : (egoNodes G (choiceIdx nodes i) r).erase (choiceIdx nodes i) = []
      · have hcand : odCandidates G (choiceIdx nodes i) r = [choiceIdx nodes i] := by
          rw [odCandidates_eq, if_pos hb, if_pos he]
        rw [if_pos hb, if_pos he]
        show choiceIdx (odCandidates G (choiceIdx nodes i) r) j = choiceIdx nodes i
        rw [hcand]
        simp [choiceIdx, Nat.mod_one]
      · have hcand : odCandidates G (choiceIdx nodes i) r =
            (egoNodes G (choiceIdx nodes i) r).erase (choiceIdx nodes i) := by
          rw [odCandidates_eq, if_pos hb, if_neg he]
        rw [if_pos hb, if_neg he]
        show choiceIdx (odCandidates G (choiceIdx nodes i) r) j ∈
          (egoNodes G (choiceIdx nodes i) r).erase (choiceIdx nodes i)
        rw [hcand]
        exact choiceIdx_mem he j
    · have hcand : odCandidates G (choiceIdx nodes i) r =
          boundaryNodes G (choiceIdx nodes i) r := by
        rw [odCandidates_eq, if_neg hb]
      rw [if_neg hb]
      show choiceIdx (odCandidates G (choiceIdx nodes i) r) j ∈
        boundaryNodes G (choiceIdx nodes i) r
      rw [hcand]
      exact choiceIdx_mem hb j
  · intro x hx
    obtain ⟨j2, hj2⟩ := choiceIdx_surj _ x hx
    exact ⟨j2, hj2⟩

/-- Claim C9: the sampled destination equals the origin exactly when the
origin's ego subgraph contains no node other than the origin itself
(fallback tier 2); in every other case the destination differs from the
origin. -/
theorem sample_od_pair_self_iff (G : Graph) (nodes : List Nat) (r : ℚ) (i j : Nat)
    (hnd : G.nodes.Nodup) :
    (sample_od_pair G nodes r i j).2 = (sample_od_pair G nodes r i j).1 ↔
      ∀ x ∈ egoNodes G (choiceIdx nodes i) r, x = choiceIdx nodes i := by
  have hego : (egoNodes G (choiceIdx nodes i) r).Nodup := hnd.filter _
  constructor
  · intro hdest
    by_cases hb : boundaryNodes G (choiceIdx nodes i) r = []
    · by_cases he : (egoNodes G (choiceIdx nodes i) r).erase (choiceIdx nodes i) = []
      · exact (nodup_erase_eq_nil hego).mp he
      · exfalso
        have hcand : odCandidates G (choiceIdx nodes i) r =
            (egoNodes G (choiceIdx nodes i) r).erase (choiceIdx nodes i) := by
          rw [odCandidates_eq, if_pos hb, if_neg he]
        have hmem : (sample_od_pair G nodes r i j).2 ∈
            (egoNodes G (choiceIdx nodes i) r).erase (choiceIdx nodes i) := by
          simp only [sample_od_pair, hcand]
          exact choiceIdx_mem he j
        rw [hdest] at hmem
        have hself : choiceIdx nodes i ∈
            (egoNodes G (choiceIdx nodes i) r).erase (choiceIdx nodes i) := hmem
        exact absurd ((List.Nodup.mem_erase_iff hego).mp hself).1 (by simp)
    · exfalso
      have hcand : odCandidates G (choiceIdx nodes i) r =
          boundaryNodes G (choiceIdx nodes i) r := by
        rw [odCandidates_eq, if_neg hb]
      have hmem : (sample_od_pair G nodes r i j).2 ∈
          boundaryNodes G (choiceIdx nodes i) r := by
        simp only [sample_od_pair, hcand]
        exact choiceIdx_mem hb j
      rw [hdest] at hmem
      have := (mem_boundaryNodes.mp hmem).2.1
      exact this rfl
  · intro hall
    have he : (egoNodes G (choiceIdx nodes i) r).erase (choiceIdx nodes i) = [] :=
      (nodup_erase_eq_nil hego).mpr hall
    have hb : boundaryNodes G (choiceIdx nodes i) r = [] := by
      rcases hq : boundaryNodes G (choiceIdx nodes i) r with _ | ⟨y, ys⟩
      · rfl
      · exfalso
        have hy : y ∈ boundaryNodes G (choiceIdx nodes i) r := by
          rw [hq]; exact List.mem_cons_self y ys
        obtain ⟨hy1, hy2, _⟩ := mem_boundaryNodes.mp hy
        exact hy2 (hall y hy1)
    have hcand : odCandidates G (choiceIdx nodes i) r = [choiceIdx nodes i] := by
      rw [odCandidates_eq, if_pos hb, if_pos he]
    show choiceIdx (odCandidates G (choiceIdx nodes i) r) j = choiceIdx nodes i
    rw [hcand]
    simp [choiceIdx, Nat.mod_one]

/-- Witness for C9 at the 4-cycle graph with radius 1. -/
theorem sample_od_pair_self_iff_witness :
    cycleG.nodes.Nodup ∧
      ((sample_od_pair cycleG cycleG.nodes 1 0 0).2 =
          (sample_od_pair cycleG cycleG.nodes 1 0 0).1 ↔
        ∀ x ∈ egoNodes cycleG (choiceIdx cycleG.nodes 0) 1, x = choiceIdx cycleG.nodes 0) :=
  ⟨by decide, sample_od_pair_self_iff cycleG cycleG.nodes 1 0 0 (by decide)⟩

theorem travelTime0_nonneg {G : Graph} (h : ∀ e ∈ G.edges, 0 ≤ e.travel_time)
    (u v : Nat) : 0 ≤ travelTime0 G u v := by
  unfold travelTime0
  rcases hf : G.edges.filter (fun e => e.u == u && e.v == v && e.key == 0) with _ | ⟨e, es⟩
  · rw [hf]
  · rw [hf]
    have he : e ∈ G.edges :=
      List.mem_of_mem_filter (p := fun e => e.u == u && e.v == v && e.key == 0)
        (by rw [hf]; exact List.mem_cons_self e es)
    exact h e he

theorem tripTimestamps_head (G : Graph) (v : Nat) (rest : List Nat) (t : ℚ) :
    (tripTimestamps G (v :: rest) t).getD 0 0 = t := by
  cases rest <;> rfl

theorem tripTimestamps_step (G : Graph) : ∀ (route : List Nat) (t : ℚ) (i : Nat),
    i + 1 < (tripTimestamps G route t).length →
    (tripTimestamps G route t).getD (i + 1) 0 =
      (tripTimestamps G route t).getD i 0 +
        travelTime0 G (route.getD i 0) (route.getD (i + 1) 0)
  | [], _, _, h => by simp [tripTimestamps] at h
  | [_], _, _, h => by simp [tripTimestamps] at h
  | u :: v :: rest, t, 0, _ => by
      show (tripTimestamps G (v :: rest) (t + travelTime0 G u v)).getD 0 0 =
        t + travelTime0 G u v
      exact tripTimestamps_head G v rest _
  | u :: v :: rest, t, i + 1, h => by
      have h' : i + 1 < (tripTimestamps G (v :: rest) (t + travelTime0 G u v)).length :=
        Nat.lt_of_succ_lt_succ h
      exact tripTimestamps_step G (v :: rest) (t + travelTime0 G u v) i h'

theorem add_edge_travel_times_nonneg {G : Graph}
    (h : ∀ e ∈ G.edges, 0 ≤ e.length ∧ 0 < e.speed_kph) :
    ∀ e ∈ (add_edge_travel_times G).edges, 0 ≤ e.travel_time := by
  intro e he
  simp only [add_edge_travel_times, List.mem_map] at he
  obtain ⟨e0, he0, rfl⟩ := he
  obtain ⟨hl, hs⟩ := h e0 he0
  have hpos : (0 : ℚ) < e0.speed_kph * 1000 / 3600 := by positivity
  exact div_nonneg hl (le_of_lt hpos)

/-- Claim C2: for every trip, consecutive event timestamps differ exactly by
the travel time of the connecting edge; when all edge travel times are
non-negative the timestamps are non-decreasing, and strictly increasing
whenever that edge's travel time is positive. -/
theorem trip_timestamps_monotone (G : Graph) (route : List Nat) (t : ℚ) (i : Nat)
    (hnn : ∀ e ∈ G.edges, 0 ≤ e.travel_time)
    (hi : i + 1 < (tripTimestamps G route t).length) :
    (tripTimestamps G route t).getD (i + 1) 0 =
        (tripTimestamps G route t).getD i 0 +
          travelTime0 G (route.getD i 0) (route.getD (i + 1) 0) ∧
      (tripTimestamps G route t).getD i 0 ≤ (tripTimestamps G route t).getD (i + 1) 0 ∧
      (0 < travelTime0 G (route.getD i 0) (route.getD (i + 1) 0) →
        (tripTimestamps G route t).getD i 0 < (tripTimestamps G route t).getD (i + 1) 0) := by
  have hstep := tripTimestamps_step G route t i hi
  refine ⟨hstep, ?_, ?_⟩
  · rw [hstep]
    exact le_add_of_nonneg_right (travelTime0_nonneg hnn _ _)
  · intro hpos
    rw [hstep]
    exact lt_add_of_pos_right _ hpos

/-- Witness for C2 on the parallel-edge graph with route `[0, 1]`. -/
theorem trip_timestamps_monotone_witness :
    (∀ e ∈ parG.edges, 0 ≤ e.travel_time) ∧
      0 + 1 < (tripTimestamps parG [0, 1] 5).length ∧
      ((tripTimestamps parG [0, 1] 5).getD (0 + 1) 0 =
          (tripTimestamps parG [0, 1] 5).getD 0 0 +
            travelTime0 parG ([0, 1].getD 0 0) ([0, 1].getD (0 + 1) 0) ∧
        (tripTimestamps parG [0, 1] 5).getD 0 0 ≤
          (tripTimestamps parG [0, 1] 5).getD (0 + 1) 0 ∧
        (0 < travelTime0 parG ([0, 1].getD 0 0) ([0, 1].getD (0 + 1) 0) →
          (tripTimestamps parG [0, 1] 5).getD 0 0 <
            (tripTimestamps parG [0, 1] 5).getD (0 + 1) 0)) :=
  ⟨by decide, by decide, trip_timestamps_monotone parG [0, 1] 5 0 (by decide) (by decide)⟩

/-- Claim C10: the time increment between consecutive route nodes always
reads the travel time of the parallel edge stored under key `0`
(`G[prev_u][u][0]`); on `parG`, whose key-0 edge takes 100 s while its key-1
edge takes 10 s, the generated timestamps advance by 100 s, not by the
minimum over the parallel edges. -/
theorem parallel_edge_key0 (G : Graph) (u v : Nat) (rest : List Nat) (t : ℚ) :
    tripTimestamps G (u :: v :: rest) t =
        t :: tripTimestamps G (v :: rest) (t + travelTime0 G u v) ∧
      travelTime0 parG 0 1 = 100 ∧
      listMinD (parallelTravelTimes parG 0 1) 0 = 10 ∧
      tripTimestamps parG [0, 1] t = [t, t + 100] := by
  refine ⟨rfl, by decide, by decide, ?_⟩
  have h : travelTime0 parG 0 1 = 100 := by decide
  simp [tripTimestamps, h]

theorem lineGT_edges :
    lineGT.edges = [⟨0, 1, 0, 100, 10, 36⟩, ⟨1, 0, 0, 100, 10, 36⟩,
                    ⟨1, 2, 0, 200, 10, 72⟩, ⟨2, 1, 0, 200, 10, 72⟩] := by
  simp only [lineGT, lineG, add_edge_travel_times, List.map]
  norm_num [Edge.mk.injEq]

theorem lineGT_tt01 : travelTime0 lineGT 0 1 = 36 := by
  unfold travelTime0
  rw [lineGT_edges]
  decide

theorem lineGT_tt12 : travelTime0 lineGT 1 2 = 72 := by
  unfold travelTime0
  rw [lineGT_edges]
  decide

/-- Claim C7: on the 3-node line graph with lengths 100 m and 200 m and
speed 10 km/h, the derived travel times are 36 s and 72 s, and a trip over
`[A, B, C]` starting at `t` is stamped `t`, `t + 36`, `t + 108`. -/
theorem line_graph_event_times (t : ℚ) :
    travelTime0 lineGT 0 1 = 36 ∧ travelTime0 lineGT 1 2 = 72 ∧
      tripTimestamps lineGT [0, 1, 2] t = [t, t + 36, t + 108] := by
  refine ⟨lineGT_tt01, lineGT_tt12, ?_⟩
  simp only [tripTimestamps, lineGT_tt01, lineGT_tt12, List.cons.injEq, and_true, true_and]
  ring

theorem simplePaths_self (G : Graph) (s : Nat) : simplePaths G s s = [[s]] := by
  simp [simplePaths, pathsFromAux]

theorem sdist_self (G : Graph) (s : Nat) : sdist G s s = some 0 := by
  simp [sdist, simplePaths_self, pathWeight]

theorem mem_egoNodes {G : Graph} {s n : Nat} {r : ℚ} (h0 : 0 ≤ r) :
    n ∈ egoNodes G s r ↔ n ∈ G.nodes ∧ ∃ d, sdist G s n = some d ∧ d ≤ r := by
  simp only [egoNodes, List.mem_filter, Bool.or_eq_true, decide_eq_true_eq]
  constructor
  · rintro ⟨hn, hcond | hcond⟩
    · subst hcond
      exact ⟨hn, 0, sdist_self G _, h0⟩
    · refine ⟨hn, ?_⟩
      unfold withinRadius at hcond
      rcases hd : sdist G s n with _ | d
      · rw [hd] at hcond
        simp at hcond
      · rw [hd] at hcond
        simp only [decide_eq_true_eq] at hcond
        exact ⟨d, rfl, hcond⟩
  · rintro ⟨hn, d, hd, hdr⟩
    refine ⟨hn, Or.inr ?_⟩
    unfold withinRadius
    rw [hd]
    simpa using hdr

theorem cycleG_ego : egoNodes cycleG 0 1 = [0, 1, 3] := by
  have h1 : simplePaths cycleG 0 1 = [[0, 1], [0, 3, 2, 1]] := by decide
  have h2 : simplePaths cycleG 0 2 = [[0, 1, 2], [0, 3, 2]] := by decide
  have h3 : simplePaths cycleG 0 3 = [[0, 1, 2, 3], [0, 3]] := by decide
  simp only [egoNodes, cycleG, List.filter, withinRadius, sdist, h1, h2, h3, List.map,
    pathWeight, minEdgeLength, edgeLengths, listMinD, List.foldl]
  norm_num [cycleG, List.filter]

theorem cycleG_boundary : boundaryNodes cycleG 0 1 = [1, 3] := by
  show (egoNodes cycleG 0 1).filter
      (fun n => decide (n ≠ 0) &&
        (neighbors cycleG n).any (fun m => decide (m ∉ egoNodes cycleG 0 1))) = [1, 3]
  rw [cycleG_ego]
  decide

/-- Claim C6: the radius-`r` ego subgraph holds exactly the graph nodes
whose shortest cumulative `length` distance from the origin is at most `r`,
and the boundary nodes are exactly the non-origin ego nodes with at least
one neighbor, in the full graph, outside the ego subgraph; on the 4-node
unit-length cycle with radius 1 from node 0 the ego subgraph is `[0, 1, 3]`
and the boundary nodes are exactly `[1, 3]`. -/
theorem ego_and_boundary_characterization (G : Graph) (s n : Nat) (r : ℚ) (h0 : 0 ≤ r) :
    (n ∈ egoNodes G s r ↔ n ∈ G.nodes ∧ ∃ d, sdist G s n = some d ∧ d ≤ r) ∧
      (n ∈ boundaryNodes G s r ↔
        n ∈ egoNodes G s r ∧ n ≠ s ∧ ∃ m ∈ neighbors G n, m ∉ egoNodes G s r) ∧
      egoNodes cycleG 0 1 = [0, 1, 3] ∧ boundaryNodes cycleG 0 1 = [1, 3] :=
  ⟨mem_egoNodes h0, mem_boundaryNodes, cycleG_ego, cycleG_boundary⟩

/-- Witness for C6 at the 4-cycle graph, radius 1, node 1. -/
theorem ego_and_boundary_characterization_witness :
    (0 : ℚ) ≤ 1 ∧
      ((1 ∈ egoNodes cycleG 0 1 ↔
          1 ∈ cycleG.nodes ∧ ∃ d, sdist cycleG 0 1 = some d ∧ d ≤ 1) ∧
        (1 ∈ boundaryNodes cycleG 0 1 ↔
          1 ∈ egoNodes cycleG 0 1 ∧ 1 ≠ 0 ∧
            ∃ m ∈ neighbors cycleG 1, m ∉ egoNodes cycleG 0 1) ∧
        egoNodes cycleG 0 1 = [0, 1, 3] ∧ boundaryNodes cycleG 0 1 = [1, 3]) :=
  ⟨by decide, ego_and_boundary_characterization cycleG 0 1 1 (by decide)⟩

theorem mem_neighbors_hasEdge {G : Graph} {u w : Nat} (h : w ∈ neighbors G u) :
    hasEdgeB G u w = true := by
  unfold neighbors at h
  rw [List.mem_dedup] at h
  obtain ⟨e, he, hev⟩ := List.mem_map.mp h
  obtain ⟨heG, heu⟩ := List.mem_filter.mp he
  unfold hasEdgeB
  rw [List.any_eq_true]
  refine ⟨e, heG, ?_⟩
  simp only [beq_iff_eq] at heu
  simp [heu, hev]

theorem pathsFromAux_sound (G : Graph) :
    ∀ (fuel u t : Nat) (vis p : List Nat),
      p ∈ pathsFromAux G fuel u t vis → IsWalkFrom G u t p
  | 0, _, _, _, _, h => by simp [pathsFromAux] at h
  | fuel + 1, u, t, vis, p, h => by
      rw [pathsFromAux] at h
      by_cases hut : u = t
      · rw [if_pos hut] at h
        simp only [List.mem_singleton] at h
        subst h
        exact ⟨rfl, by simp [hut], List.chain'_singleton u⟩
      · rw [if_neg hut] at h
        obtain ⟨w, hw, hp⟩ := List.mem_flatMap.mp h
        obtain ⟨q, hq, rfl⟩ := List.mem_map.mp hp
        obtain ⟨h1, h2, h3⟩ := pathsFromAux_sound G fuel w t (u :: vis) q hq
        have hwn : w ∈ neighbors G u := (List.mem_filter.mp hw).1
        rcases q with _ | ⟨w', q'⟩
        · simp at h1
        · obtain rfl : w' = w := by simpa using h1
          refine ⟨rfl, ?_, ?_⟩
          · rw [List.getLast?_cons_cons]
            exact h2
          · exact List.chain'_cons.mpr ⟨mem_neighbors_hasEdge hwn, h3⟩

theorem foldl_pick_mem (f : List Nat → ℚ) :
    ∀ (ps : List (List Nat)) (p : List Nat),
      ps.foldl (fun best q => if f q < f best then q else best) p ∈ p :: ps
  | [], p => List.mem_cons_self p []
  | q :: ps, p => by
      have h := foldl_pick_mem f ps (if f q < f p then q else p)
      rw [List.foldl_cons]
      rcases List.mem_cons.mp h with heq | hmem
      · rw [heq]
        by_cases hc : f q < f p
        · simp [hc]
        · simp [hc]
      · exact List.mem_cons_of_mem _ (List.mem_cons_of_mem _ hmem)

theorem shortest_path_isWalk {G : Graph} {u v : Nat} {p : List Nat}
    (h : shortest_path G u v = some p) : IsWalkFrom G u v p := by
  unfold shortest_path at h
  rcases hsp : simplePaths G u v with _ | ⟨q, qs⟩
  · rw [hsp] at h
    simp at h
  · rw [hsp] at h
    simp only [Option.some.injEq] at h
    subst h
    have hmem := foldl_pick_mem (pathWeight G) qs q
    have hin : qs.foldl
        (fun best q => if pathWeight G q < pathWeight G best then q else best) q ∈
          simplePaths G u v := by
      rw [hsp]
      exact hmem
    exact pathsFromAux_sound G (G.nodes.length + 1) u v [] _ hin

/-- Claim C5: an OD pair with no connecting path gets `shortest_path = none`
("no route") instead of an error; the pipeline drops exactly that pair and
keeps the routes of the remaining pairs, and the reported success rate is
the number of routes found divided by the number of trips requested. -/
theorem no_route_dropped (G : Graph) (u v : Nat) (pairs1 pairs2 : List (Nat × Nat))
    (n : Nat) (h : ¬ PathExists G u v) :
    shortest_path G u v = none ∧
      pipelineRoutes G (pairs1 ++ (u, v) :: pairs2) =
        pipelineRoutes G pairs1 ++ pipelineRoutes G pairs2 ∧
      successRate G (pairs1 ++ (u, v) :: pairs2) n =
        ((pipelineRoutes G (pairs1 ++ (u, v) :: pairs2)).length : ℚ) / (n : ℚ) := by
  have hnone : shortest_path G u v = none := by
    rcases hsp : shortest_path G u v with _ | p
    · rfl
    · exact absurd ⟨p, shortest_path_isWalk hsp⟩ h
  refine ⟨hnone, ?_, rfl⟩
  simp [pipelineRoutes, List.filterMap_append, List.filterMap_cons, hnone]

theorem noPathG_no_walk : ¬ PathExists noPathG 0 1 := by
  rintro ⟨p, h1, h2, h3⟩
  rcases p with _ | ⟨a, q⟩
  · simp at h1
  · obtain rfl : a = 0 := by simpa using h1
    rcases q with _ | ⟨b, q'⟩
    · simp at h2
    · have hedge : hasEdgeB noPathG 0 b = true := (List.chain'_cons.mp h3).1
      simp [hasEdgeB, noPathG] at hedge

/-- Witness for C5 on the edge-less two-node graph. -/
theorem no_route_dropped_witness :
    (¬ PathExists noPathG 0 1) ∧
      (shortest_path noPathG 0 1 = none ∧
        pipelineRoutes noPathG ([] ++ (0, 1) :: []) =
          pipelineRoutes noPathG [] ++ pipelineRoutes noPathG [] ∧
        successRate noPathG ([] ++ (0, 1) :: []) 1 =
          ((pipelineRoutes noPathG ([] ++ (0, 1) :: [])).length : ℚ) / ((1 : Nat) : ℚ)) :=
  ⟨noPathG_no_walk, no_route_dropped noPathG 0 1 [] [] 1 noPathG_no_walk⟩

/-- Claim C3 (code bug): the post-generation check `events.index.is_unique`
is meant to detect duplicated event identifiers, but after the first
`pd.concat(..., ignore_index=True)` the frame's index is a positional
`RangeIndex`, which is unique by construction: here two events share the
event identifier 5, yet the duplicate-id error is not logged. -/
theorem duplicate_check_vacuous :
    ([(⟨5, 1, 0, 0, 0⟩ : Event), ⟨5, 1, 1, 0, 0⟩].map (fun e => e.event_id) = [5, 5]) ∧
      ¬ ([5, 5] : List Nat).Nodup ∧
      duplicateIdErrorLogged [⟨5, 1, 0, 0, 0⟩, ⟨5, 1, 1, 0, 0⟩] = false := by
  decide

/-- Claim C4 (code bug): in the exported dataset the first event's
`event_id` is missing — `set_index("event_id")` moves it into the index and
`pd.concat(..., ignore_index=True)` discards that index while leaving the
first row's `event_id` column value empty (and with exactly one event the
`event_id` column is dropped entirely by `index=False`). -/
theorem first_event_id_lost :
    exportedEventIdColumn [⟨5, 1, 0, 0, 0⟩, ⟨7, 1, 1, 0, 0⟩] = some [none, some 7] ∧
      exportedEventIdColumn [⟨5, 1, 0, 0, 0⟩] = none := by
  decide

/-- Claim C8: when road-network acquisition fails, or the acquired network
has zero edges, the pipeline stops with a setup error, producing no
`PipelineRun` — so no distance sampling, OD sampling or trip generation
takes place. -/
theorem fatal_setup_aborts (raw : Option Graph) (numTrips : Nat) (dists : Nat → ℚ)
    (speeds : Nat → ℚ) (idxO idxD : Nat → Nat) (tids : Nat → Nat) (t0s : Nat → ℚ)
    (eids : Nat → Nat → Nat)
    (h : raw = none ∨ ∃ G0, raw = some G0 ∧ G0.edges = []) :
    ∃ e, runPipeline raw numTrips dists speeds idxO idxD tids t0s eids =
      Except.error e := by
  rcases h with rfl | ⟨G0, rfl, hG0⟩
  · exact ⟨SetupError.acquisitionFailed, rfl⟩
  · refine ⟨SetupError.emptyNetwork, ?_⟩
    simp [runPipeline, graph_from_place, hG0]

/-- Witness for C8 with a failed acquisition. -/
theorem fatal_setup_aborts_witness :
    ((none : Option Graph) = none ∨
        ∃ G0, (none : Option Graph) = some G0 ∧ G0.edges = []) ∧
      ∃ e, runPipeline none 0 (fun _ => 0) (fun _ => 0) (fun _ => 0) (fun _ => 0)
          (fun _ => 0) (fun _ => 0) (fun _ _ => 0) = Except.error e :=
  ⟨Or.inl rfl,
    fatal_setup_aborts none 0 (fun _ => 0) (fun _ => 0) (fun _ => 0) (fun _ => 0)
      (fun _ => 0) (fun _ => 0) (fun _ _ => 0) (Or.inl rfl)⟩

end LoadGenerator
